import Mathlib

/-!
A verification development for a CSV splitter (`split_csv.py`).

The program reads a delimited input file, takes the first parsed row as the
header, groups the remaining data rows into chunks of at most `max_lines`
rows, and writes each chunk (prefixed by the header) to an output file named
`{stem}.{start}-{end}{suffix}` in the input's directory, printing status
messages along the way.

The embedding below is a shallow one: file contents are the list of rows
produced by the CSV reader; the effects of a run (files written, messages
printed) are collected in a `SplitResult` value.
-/

namespace SplitCsv

/-- A data row: the ordered field values of one CSV record. -/
abbrev Row := List String

/-- A chunk of data rows together with the 1-based inclusive row range it
covers (mirrors `start_row`, `end_row`, `chunk` in `split_csv`). -/
structure Chunk where
  start_row : Nat
  end_row : Nat
  rows : List Row
deriving Repr, DecidableEq

/-- The parsed input file: directory, stem, extension, and the list of rows
the CSV reader yields (header first, when present). -/
structure InputFile where
  dir : String
  stem : String
  ext : String
  content : List Row
deriving Repr, DecidableEq

/-- One output file written by the splitter: its directory, its file name,
the row range it covers, and its full row content (header first). -/
structure OutputFile where
  dir : String
  name : String
  start_row : Nat
  end_row : Nat
  content : List Row
deriving Repr, DecidableEq

/-- The observable effects of a run: the files written (in creation order)
and the messages printed (in print order). -/
structure SplitResult where
  files : List OutputFile
  messages : List String
deriving Repr, DecidableEq

/-- One iteration of the `while True` loop of `split_csv`, recursing on a
bound `fuel` on the number of iterations still possible.  Each pass collects
up to `k` rows (`k` is the number of iterations of
`for _ in range(max_lines)`, i.e. `max_lines.toNat`) and stops when a pass
collects no rows; since a pass that continues consumes at least one row, any
`fuel ≥ rows.length` makes this the exact loop. -/
def splitLoopGo (k : Nat) : Nat → List Row → Nat → List Chunk
  | 0, _, _ => []
  | fuel + 1, rows, row_num =>
    let chunk := rows.take k
    if chunk = [] then []
    else
      { start_row := row_num, end_row := row_num + chunk.length - 1, rows := chunk } ::
        splitLoopGo k fuel (rows.drop k) (row_num + chunk.length)

/-- The `while True` loop of `split_csv`: `rows.length` bounds the number of
chunk-producing iterations, so it is enough fuel. -/
def splitLoop (k : Nat) (rows : List Row) (row_num : Nat) : List Chunk :=
  splitLoopGo k rows.length rows row_num

/-- The name of the output file for the chunk covering rows `s` through `e`
(mirrors `f"{base_name}.{start_row}-{end_row}{extension}"`). -/
def output_filename (base : String) (ext : String) (s e : Nat) : String :=
  base ++ "." ++ toString s ++ "-" ++ toString e ++ ext

/-- Shallow embedding of `split_csv(input_file, max_lines)`: returns the
files written and the messages printed.  An empty reader (no header) prints
the empty-file error; otherwise the remaining rows are chunked by
`splitLoop` starting at data row 1 and each chunk is written as
header-plus-rows. -/
def split_csv (input : InputFile) (max_lines : Int) : SplitResult :=
  match input.content with
  | [] => ⟨[], ["Error: Input file is empty"]⟩
  | header :: data =>
    let chunks := splitLoop max_lines.toNat data 1
    let files : List OutputFile := chunks.map fun c =>
      ⟨input.dir, output_filename input.stem input.ext c.start_row c.end_row,
        c.start_row, c.end_row, header :: c.rows⟩
    let created := files.map fun f => "Created: " ++ f.dir ++ "/" ++ f.name
    let summary :=
      if chunks.length = 0 then ["No data rows found in the input file"]
      else ["Split complete: Created " ++ toString chunks.length ++ " files"]
    ⟨files, created ++ summary⟩

/-- CLI-level facts about the input path that `main` inspects before calling
the splitter. -/
structure PathInfo where
  path : String
  path_exists : Bool
  is_file : Bool
  file : InputFile
deriving Repr, DecidableEq

/-- Shallow embedding of `main()` after argument parsing: validate the input
path and `max_lines`, then call `split_csv`. -/
def main (input_csv : PathInfo) (max_lines : Int) : SplitResult :=
  if input_csv.path_exists = false then
    ⟨[], ["Error: Input file '" ++ input_csv.path ++ "' does not exist"]⟩
  else if input_csv.is_file = false then
    ⟨[], ["Error: '" ++ input_csv.path ++ "' is not a file"]⟩
  else if max_lines ≤ 0 then
    ⟨[], ["Error: --max-lines must be a positive integer"]⟩
  else
    split_csv input_csv.file max_lines

/-- Doubling of embedded quote characters inside a quoted CSV field. -/
def csv_escape : List Char → List Char
  | [] => []
  | c :: rest => if c == '\"' then '\"' :: '\"' :: csv_escape rest else c :: csv_escape rest

/-- Modelled from the spec: the field serialization of Python's `csv.writer`
(library code, not part of the repository source).  Per the spec's output
contract, rows are written "in original order and original field-level
formatting (no reformatting, re-quoting is acceptable as long as round-trip
field values are preserved)": a field is quoted only when it contains a
delimiter, a quote, or a line break, with embedded quotes doubled. -/
def csv_write_field (s : String) : String :=
  if s.data.any fun c => c == ',' || c == '\"' || c == '\n' || c == '\r' then
    "\"" ++ String.mk (csv_escape s.data) ++ "\""
  else s

/-- Modelled from the spec: one output line as written by `csv.writer` —
the serialized fields joined with the delimiter. -/
def csv_write_row (r : Row) : String :=
  String.intercalate "," (r.map csv_write_field)

/-- Parser state for one line of delimited text: outside quotes, inside a
quoted field, or just after a quote character inside a quoted field. -/
inductive CsvState where
  | plain
  | quoted
  | quoteInQuoted
deriving Repr, DecidableEq

/-- Modelled from the spec: parsing one line of delimited text into field
values as Python's `csv.reader` does (library code, not part of the
repository source): fields are separated by commas; a field may be wrapped
in double quotes, inside which `""` denotes a literal quote character. -/
def csv_parse_aux : List Char → CsvState → String → List String
  | [], _, cur => [cur]
  | c :: rest, CsvState.plain, cur =>
    if c == ',' then cur :: csv_parse_aux rest CsvState.plain ""
    else if c == '\"' && cur == "" then csv_parse_aux rest CsvState.quoted cur
    else csv_parse_aux rest CsvState.plain (cur.push c)
  | c :: rest, CsvState.quoted, cur =>
    if c == '\"' then csv_parse_aux rest CsvState.quoteInQuoted cur
    else csv_parse_aux rest CsvState.quoted (cur.push c)
  | c :: rest, CsvState.quoteInQuoted, cur =>
    if c == '\"' then csv_parse_aux rest CsvState.quoted (cur.push '\"')
    else if c == ',' then cur :: csv_parse_aux rest CsvState.plain ""
    else csv_parse_aux rest CsvState.plain (cur.push c)

/-- Modelled from the spec: parse one CSV line into its row of field
values. -/
def csv_parse_row (line : String) : Row :=
  csv_parse_aux line.data CsvState.plain ""

/-- The chunk that the closed form of the loop assigns to index `i`: it
covers absolute data rows `r + i*k` through `r + min ((i+1)*k) rows.length - 1`
and holds the `i`-th block of `k` consecutive rows. -/
def chunkAt (k : Nat) (rows : List Row) (r i : Nat) : Chunk :=
  ⟨r + i * k, r + min ((i + 1) * k) rows.length - 1, (rows.drop (i * k)).take k⟩

theorem splitLoopGo_closed (k : Nat) (hk : 1 ≤ k) :
    ∀ (fuel : Nat) (rows : List Row) (r : Nat), rows.length ≤ fuel →
      splitLoopGo k fuel rows r =
        (List.range ((rows.length + k - 1) / k)).map (chunkAt k rows r) := by
  intro fuel
  induction fuel with
  | zero =>
    intro rows r hle
    have hnil : rows = [] := List.eq_nil_of_length_eq_zero (Nat.le_zero.mp hle)
    subst hnil
    have h0 : (k - 1) / k = 0 := Nat.div_eq_of_lt (by omega)
    simp [splitLoopGo, h0]
  | succ fuel ih =>
    intro rows r hle
    by_cases hrows : rows = []
    · subst hrows
      have h0 : (k - 1) / k = 0 := Nat.div_eq_of_lt (by omega)
      simp [splitLoopGo, h0]
    · have hL : 1 ≤ rows.length := List.length_pos.mpr hrows
      have hchunk : ¬rows.take k = [] := by
        rw [List.take_eq_nil_iff]
        push_neg
        exact ⟨by omega, hrows⟩
      rw [splitLoopGo, if_neg hchunk]
      have hlen : (rows.take k).length = min k rows.length := by
        simp [List.length_take]
      have hcount : (rows.length + k - 1) / k = (rows.length - 1) / k + 1 := by
        have h1 : rows.length + k - 1 = (rows.length - 1) + k := by omega
        rw [h1, Nat.add_div_right _ (by omega)]
      rw [hcount, List.range_succ_eq_map, List.map_cons, List.map_map]
      congr 1
      · simp [chunkAt, hlen, Nat.min_comm]
      · have hdlen : (rows.drop k).length ≤ fuel := by
          simp only [List.length_drop]
          omega
        rw [ih (rows.drop k) (r + (rows.take k).length) hdlen]
        rcases le_or_lt k rows.length with hkL | hLk
        · have hmin : (rows.take k).length = k := by omega
          have hnum : (rows.drop k).length + k - 1 = rows.length - 1 := by
            simp only [List.length_drop]
            omega
          rw [hmin, hnum]
          refine List.map_congr_left fun i hi => ?_
          have e1 : (i + 1) * k = i * k + k := by ring
          have e2 : (i + 2) * k = i * k + 2 * k := by ring
          simp only [chunkAt, Chunk.mk.injEq, Function.comp_apply, List.length_drop,
            List.drop_drop, Nat.succ_eq_add_one]
          have e3 : i * k + k = k + i * k := by omega
          refine ⟨by omega, ?_, by rw [e1, e3]⟩
          rw [show (i + 1 + 1) * k = i * k + 2 * k by ring, e1]
          generalize i * k = a
          omega
        · have hdnil : rows.drop k = [] := List.drop_eq_nil_iff.mpr (by omega)
          have hz1 : ((rows.drop k).length + k - 1) / k = 0 := by
            rw [hdnil]
            exact Nat.div_eq_of_lt (by simp; omega)
          have hz2 : (rows.length - 1) / k = 0 := Nat.div_eq_of_lt (by omega)
          rw [hz1, hz2]
          simp

/-- Closed form of the chunking loop: with `k ≥ 1`, chunk `i` (for
`i < ⌈rows.length / k⌉`) is exactly `chunkAt k rows r i`. -/
theorem splitLoop_closed (k : Nat) (hk : 1 ≤ k) (rows : List Row) (r : Nat) :
    splitLoop k rows r =
      (List.range ((rows.length + k - 1) / k)).map (chunkAt k rows r) :=
  splitLoopGo_closed k hk rows.length rows r (Nat.le_refl _)

/-- The number of chunks is the ceiling of `rows.length / k`. -/
theorem splitLoop_length (k : Nat) (hk : 1 ≤ k) (rows : List Row) (r : Nat) :
    (splitLoop k rows r).length = (rows.length + k - 1) / k := by
  rw [splitLoop_closed k hk rows r]
  simp

theorem splitLoopGo_flatten (k : Nat) (hk : 1 ≤ k) :
    ∀ (fuel : Nat) (rows : List Row) (r : Nat), rows.length ≤ fuel →
      ((splitLoopGo k fuel rows r).map Chunk.rows).flatten = rows := by
  intro fuel
  induction fuel with
  | zero =>
    intro rows r hle
    have hnil : rows = [] := List.eq_nil_of_length_eq_zero (Nat.le_zero.mp hle)
    subst hnil
    simp [splitLoopGo]
  | succ fuel ih =>
    intro rows r hle
    by_cases hrows : rows = []
    · subst hrows
      simp [splitLoopGo]
    · have hL : 1 ≤ rows.length := List.length_pos.mpr hrows
      have hchunk : ¬rows.take k = [] := by
        rw [List.take_eq_nil_iff]
        push_neg
        exact ⟨by omega, hrows⟩
      rw [splitLoopGo, if_neg hchunk]
      have hdlen : (rows.drop k).length ≤ fuel := by
        simp only [List.length_drop]
        omega
      simp only [List.map_cons, List.flatten_cons]
      rw [ih (rows.drop k) (r + (rows.take k).length) hdlen]
      exact List.take_append_drop k rows

/-- Concatenating the rows of all chunks gives back the input rows. -/
theorem splitLoop_flatten (k : Nat) (hk : 1 ≤ k) (rows : List Row) (r : Nat) :
    ((splitLoop k rows r).map Chunk.rows).flatten = rows :=
  splitLoopGo_flatten k hk rows.length rows r (Nat.le_refl _)

/-- With `k = 0` every pass of the loop collects no rows, so it exits at
once with no chunks. -/
theorem splitLoopGo_zero_k (fuel : Nat) (rows : List Row) (r : Nat) :
    splitLoopGo 0 fuel rows r = [] := by
  cases fuel <;> simp [splitLoopGo]

/-- Unfolding of `split_csv` for an empty reader. -/
theorem split_csv_nil (input : InputFile) (m : Int) (hc : input.content = []) :
    split_csv input m = ⟨[], ["Error: Input file is empty"]⟩ := by
  unfold split_csv
  rw [hc]

/-- Unfolding of `split_csv` for a nonempty reader: header plus data rows. -/
theorem split_csv_cons (input : InputFile) (m : Int) (header : Row) (data : List Row)
    (hc : input.content = header :: data) :
    split_csv input m =
      ⟨(splitLoop m.toNat data 1).map fun c =>
          ⟨input.dir, output_filename input.stem input.ext c.start_row c.end_row,
            c.start_row, c.end_row, header :: c.rows⟩,
        ((splitLoop m.toNat data 1).map fun c =>
          "Created: " ++ input.dir ++ "/" ++
            output_filename input.stem input.ext c.start_row c.end_row) ++
          if (splitLoop m.toNat data 1).length = 0 then
            ["No data rows found in the input file"]
          else
            ["Split complete: Created " ++ toString (splitLoop m.toNat data 1).length ++
              " files"]⟩ := by
  unfold split_csv
  rw [hc]
  simp only [List.map_map]
  rfl

/-- Ceiling division agrees with flooring division when the remainder is 0. -/
theorem ceil_div_of_mod_eq_zero (H N : Nat) (hN : 1 ≤ N) (h : H % N = 0) :
    (H + N - 1) / N = H / N := by
  have hqr : N * (H / N) + H % N = H := Nat.div_add_mod H N
  have e : H + N - 1 = N * (H / N) + (N - 1) := by omega
  rw [e, Nat.mul_add_div (by omega)]
  have h0 : (N - 1) / N = 0 := Nat.div_eq_of_lt (by omega)
  omega

/-- Ceiling division is one more than flooring division when the remainder
is nonzero. -/
theorem ceil_div_of_mod_ne_zero (H N : Nat) (hN : 1 ≤ N) (h : H % N ≠ 0) :
    (H + N - 1) / N = H / N + 1 := by
  have hqr : N * (H / N) + H % N = H := Nat.div_add_mod H N
  have hr : H % N < N := Nat.mod_lt _ (by omega)
  have e2 : N * (H / N + 1) = N * (H / N) + N := by ring
  have e : H + N - 1 = N * (H / N + 1) + (H % N - 1) := by omega
  rw [e, Nat.mul_add_div (by omega)]
  have h0 : (H % N - 1) / N = 0 := Nat.div_eq_of_lt (by omega)
  omega

/-- There is at least one chunk as soon as there is at least one row. -/
theorem ceil_div_pos (H N : Nat) (hN : 1 ≤ N) (hH : 1 ≤ H) :
    1 ≤ (H + N - 1) / N :=
  Nat.div_pos (by omega) (by omega)

/-- All blocks before the last end strictly inside the rows. -/
theorem succ_mul_lt_of_lt_ceil (H N i : Nat) (hN : 1 ≤ N)
    (hi : i + 1 < (H + N - 1) / N) : (i + 1) * N < H := by
  have hqr : N * (H / N) + H % N = H := Nat.div_add_mod H N
  have hr : H % N < N := Nat.mod_lt _ (by omega)
  by_cases h : H % N = 0
  · rw [ceil_div_of_mod_eq_zero H N hN h] at hi
    have h1 : (i + 2) * N ≤ H / N * N := Nat.mul_le_mul_right N (by omega)
    have h2 : (i + 2) * N = (i + 1) * N + N := by ring
    have h3 : H / N * N = N * (H / N) := Nat.mul_comm _ _
    omega
  · rw [ceil_div_of_mod_ne_zero H N hN h] at hi
    have h1 : (i + 1) * N ≤ H / N * N := Nat.mul_le_mul_right N (by omega)
    have h3 : H / N * N = N * (H / N) := Nat.mul_comm _ _
    omega

/-- The last block ends at or after the last row. -/
theorem le_ceil_div_mul (H N : Nat) (hN : 1 ≤ N) :
    H ≤ (H + N - 1) / N * N := by
  have hqr : N * (H / N) + H % N = H := Nat.div_add_mod H N
  have hr : H % N < N := Nat.mod_lt _ (by omega)
  by_cases h : H % N = 0
  · rw [ceil_div_of_mod_eq_zero H N hN h]
    have h3 : H / N * N = N * (H / N) := Nat.mul_comm _ _
    omega
  · rw [ceil_div_of_mod_ne_zero H N hN h]
    have e2 : (H / N + 1) * N = H / N * N + N := by ring
    have h3 : H / N * N = N * (H / N) := Nat.mul_comm _ _
    omega

/-- C1: for an input with a header and `H` data rows and a chunk size
`N ≥ 1`, the splitter creates exactly `⌈H/N⌉` output files (so 0 files when
`H = 0`), and whenever `H ≥ 1` the printed summary reports exactly that
count. -/
theorem C1_output_file_count (input : InputFile) (header : Row) (data : List Row)
    (N : Nat) (hc : input.content = header :: data) (hN : 1 ≤ N) :
    (split_csv input (N : Int)).files.length = (data.length + N - 1) / N ∧
      (1 ≤ data.length →
        "Split complete: Created " ++ toString ((data.length + N - 1) / N) ++ " files" ∈
          (split_csv input (N : Int)).messages) := by
  rw [split_csv_cons input (N : Int) header data hc, Int.toNat_natCast]
  have hcnt : (splitLoop N data 1).length = (data.length + N - 1) / N :=
    splitLoop_length N hN data 1
  constructor
  · simp [hcnt]
  · intro hH
    have hpos : ¬(data.length + N - 1) / N = 0 := by
      have := ceil_div_pos data.length N hN hH
      omega
    simp only [hcnt, if_neg hpos]
    exact List.mem_append_right _ (List.mem_singleton.mpr rfl)

theorem C1_output_file_count_witness :
    (split_csv ⟨"d", "t", ".csv", [["h"], ["1"], ["2"], ["3"]]⟩ ((2 : Nat) : Int)).files.length
        = 2 ∧
      "Split complete: Created 2 files" ∈
        (split_csv ⟨"d", "t", ".csv", [["h"], ["1"], ["2"], ["3"]]⟩ ((2 : Nat) : Int)).messages := by
  have h := C1_output_file_count ⟨"d", "t", ".csv", [["h"], ["1"], ["2"], ["3"]]⟩
    ["h"] [["1"], ["2"], ["3"]] 2 rfl (by decide)
  exact ⟨h.1.trans (by decide), h.2 (by decide)⟩

/-- C3: concatenating the data rows (the content after the header) of all
output files, in the order the files are created — which is ascending range
order — yields exactly the original data rows. -/
theorem C3_reconstruction (input : InputFile) (header : Row) (data : List Row)
    (N : Nat) (hc : input.content = header :: data) (hN : 1 ≤ N) :
    ((split_csv input (N : Int)).files.map fun f => f.content.drop 1).flatten = data := by
  rw [split_csv_cons input (N : Int) header data hc, Int.toNat_natCast]
  simp only [List.map_map]
  exact splitLoop_flatten N hN data 1

theorem C3_reconstruction_witness :
    ((split_csv ⟨"d", "t", ".csv", [["h"], ["1"], ["2"], ["3"]]⟩ ((2 : Nat) : Int)).files.map
        fun f => f.content.drop 1).flatten = [["1"], ["2"], ["3"]] :=
  C3_reconstruction ⟨"d", "t", ".csv", [["h"], ["1"], ["2"], ["3"]]⟩
    ["h"] [["1"], ["2"], ["3"]] 2 rfl (by decide)

/-- C6: the CLI entry point reports a missing input, a non-file input, and a
non-positive `max_lines` with the corresponding message, and in each case
writes no output file (the splitter is not reached). -/
theorem C6_cli_validation (p : PathInfo) (m : Int) :
    (p.path_exists = false →
      main p m = ⟨[], ["Error: Input file '" ++ p.path ++ "' does not exist"]⟩) ∧
    (p.path_exists = true → p.is_file = false →
      main p m = ⟨[], ["Error: '" ++ p.path ++ "' is not a file"]⟩) ∧
    (p.path_exists = true → p.is_file = true → m ≤ 0 →
      main p m = ⟨[], ["Error: --max-lines must be a positive integer"]⟩) := by
  refine ⟨fun h1 => ?_, fun h1 h2 => ?_, fun h1 h2 h3 => ?_⟩
  · simp [main, h1]
  · simp [main, h1, h2]
  · simp [main, h1, h2, h3]

theorem C6_cli_validation_witness :
    main ⟨"p", false, false, ⟨"d", "t", ".csv", [["h"], ["1"]]⟩⟩ 5 =
        ⟨[], ["Error: Input file 'p' does not exist"]⟩ ∧
      main ⟨"p", true, false, ⟨"d", "t", ".csv", [["h"], ["1"]]⟩⟩ 5 =
        ⟨[], ["Error: 'p' is not a file"]⟩ ∧
      main ⟨"p", true, true, ⟨"d", "t", ".csv", [["h"], ["1"]]⟩⟩ 0 =
        ⟨[], ["Error: --max-lines must be a positive integer"]⟩ :=
  ⟨(C6_cli_validation ⟨"p", false, false, ⟨"d", "t", ".csv", [["h"], ["1"]]⟩⟩ 5).1 rfl,
    (C6_cli_validation ⟨"p", true, false, ⟨"d", "t", ".csv", [["h"], ["1"]]⟩⟩ 5).2.1 rfl rfl,
    (C6_cli_validation ⟨"p", true, true, ⟨"d", "t", ".csv", [["h"], ["1"]]⟩⟩ 0).2.2 rfl rfl
      (by decide)⟩

/-- C7: an input with no rows at all reports the empty-file error and writes
nothing; an input with a header but no data rows reports that no data rows
were found and writes nothing, and that is the only message (no summary);
both are ordinary returned results of the function. -/
theorem C7_empty_and_header_only (input : InputFile) (m : Int) (header : Row) :
    (input.content = [] →
      split_csv input m = ⟨[], ["Error: Input file is empty"]⟩) ∧
    (input.content = [header] →
      split_csv input m = ⟨[], ["No data rows found in the input file"]⟩) := by
  constructor
  · intro hc
    exact split_csv_nil input m hc
  · intro hc
    rw [split_csv_cons input m header [] hc]
    simp [splitLoop, splitLoopGo]

theorem C7_empty_and_header_only_witness :
    split_csv ⟨"d", "t", ".csv", []⟩ 5 = ⟨[], ["Error: Input file is empty"]⟩ ∧
      split_csv ⟨"d", "t", ".csv", [["Name", "Age", "City"]]⟩ 5 =
        ⟨[], ["No data rows found in the input file"]⟩ :=
  ⟨(C7_empty_and_header_only ⟨"d", "t", ".csv", []⟩ 5 []).1 rfl,
    (C7_empty_and_header_only ⟨"d", "t", ".csv", [["Name", "Age", "City"]]⟩ 5
      ["Name", "Age", "City"]).2 rfl⟩

/-- C10: `split_csv` called directly with any `max_lines ≤ 0` still
terminates (it is a total function), collects no rows, creates no output
files, and reports that no data rows were found — even when data rows are
present. -/
theorem C10_nonpositive_max_lines (input : InputFile) (m : Int) (header : Row)
    (data : List Row) (hc : input.content = header :: data) (hm : m ≤ 0) :
    (split_csv input m).files = [] ∧
      (split_csv input m).messages = ["No data rows found in the input file"] := by
  have hk : m.toNat = 0 := Int.toNat_of_nonpos hm
  rw [split_csv_cons input m header data hc, hk]
  constructor <;> simp [splitLoop, splitLoopGo_zero_k]

/-- Closed form of the output-file list: file `i` is named by the range
`[i*N + 1, min ((i+1)*N) H]`, covers exactly those rows, and carries the
header followed by the `i`-th block of `N` data rows. -/
theorem split_csv_files_eq (input : InputFile) (header : Row) (data : List Row)
    (N : Nat) (hc : input.content = header :: data) (hN : 1 ≤ N) :
    (split_csv input (N : Int)).files =
      (List.range ((data.length + N - 1) / N)).map fun i =>
        ⟨input.dir,
          output_filename input.stem input.ext (i * N + 1) (min ((i + 1) * N) data.length),
          i * N + 1, min ((i + 1) * N) data.length,
          header :: (data.drop (i * N)).take N⟩ := by
  rw [split_csv_cons input (N : Int) header data hc, Int.toNat_natCast]
  simp only [splitLoop_closed N hN data 1, List.map_map]
  refine List.map_congr_left fun i hi => ?_
  simp only [Function.comp_apply, chunkAt]
  have e1 : 1 + i * N = i * N + 1 := by omega
  have e2 : ∀ x : Nat, 1 + x - 1 = x := fun x => by omega
  rw [e1, e2]

/-- C2: with `H ≥ 1` data rows and `N ≥ 1`, output file `i` covers the
1-based row range `[i*N + 1, min ((i+1)*N) H]`; consecutive ranges are
adjacent (no overlap, no gap), the first range starts at row 1, and the
last range ends at row `H` — so together the ranges cover `[1, H]`
exactly. -/
theorem C2_row_ranges (input : InputFile) (header : Row) (data : List Row)
    (N : Nat) (hc : input.content = header :: data) (hN : 1 ≤ N)
    (hH : 1 ≤ data.length) :
    (∀ i (hi : i < (split_csv input (N : Int)).files.length),
        (split_csv input (N : Int)).files[i].start_row = i * N + 1 ∧
          (split_csv input (N : Int)).files[i].end_row = min ((i + 1) * N) data.length) ∧
      (∀ i (hi : i + 1 < (split_csv input (N : Int)).files.length),
        (split_csv input (N : Int)).files[i + 1].start_row =
          (split_csv input (N : Int)).files[i].end_row + 1) ∧
      (∀ h0 : 0 < (split_csv input (N : Int)).files.length,
        (split_csv input (N : Int)).files[0].start_row = 1) ∧
      (∀ h0 : 0 < (split_csv input (N : Int)).files.length,
        (split_csv input
            (N : Int)).files[(split_csv input (N : Int)).files.length - 1].end_row =
          data.length) := by
  rw [split_csv_files_eq input header data N hc hN]
  refine ⟨fun i hi => ?_, fun i hi => ?_, fun h0 => ?_, fun h0 => ?_⟩
  · simp [List.getElem_map, List.getElem_range]
  · simp only [List.length_map, List.length_range] at hi
    simp only [List.getElem_map, List.getElem_range]
    have hlt : (i + 1) * N < data.length := succ_mul_lt_of_lt_ceil data.length N i hN hi
    rw [Nat.min_eq_left (Nat.le_of_lt hlt)]
  · simp [List.getElem_map, List.getElem_range]
  · simp only [List.length_map, List.length_range] at h0 ⊢
    simp only [List.getElem_map, List.getElem_range]
    have hpos : 1 ≤ (data.length + N - 1) / N := ceil_div_pos data.length N hN hH
    have hsub : (data.length + N - 1) / N - 1 + 1 = (data.length + N - 1) / N := by omega
    rw [hsub]
    exact Nat.min_eq_right (le_ceil_div_mul data.length N hN)

theorem C2_row_ranges_witness :
    (split_csv ⟨"d", "t", ".csv",
        [["h"], ["1"], ["2"], ["3"], ["4"], ["5"]]⟩ ((2 : Nat) : Int)).files.map
      (fun f => (f.start_row, f.end_row)) = [(1, 2), (3, 4), (5, 5)] := by
  have h := C2_row_ranges ⟨"d", "t", ".csv", [["h"], ["1"], ["2"], ["3"], ["4"], ["5"]]⟩
    ["h"] [["1"], ["2"], ["3"], ["4"], ["5"]] 2 rfl (by decide) (by decide)
  have h0 := (h.1 0 (by decide)).1
  have h1 := (h.1 1 (by decide)).2
  have h2 := h.2.2.2 (by decide)
  decide

/-- C5: with `H ≥ 1` data rows and `N ≥ 1`, every output file except the
last holds exactly `N` data rows, and the last holds `H mod N` data rows
when that is nonzero and `N` data rows when `H mod N = 0`. -/
theorem C5_chunk_sizes (input : InputFile) (header : Row) (data : List Row)
    (N : Nat) (hc : input.content = header :: data) (hN : 1 ≤ N)
    (_hH : 1 ≤ data.length) :
    (∀ i (hi : i + 1 < (split_csv input (N : Int)).files.length),
        ((split_csv input (N : Int)).files[i].content.drop 1).length = N) ∧
      (∀ h0 : 0 < (split_csv input (N : Int)).files.length,
        ((split_csv input
              (N : Int)).files[(split_csv input
              (N : Int)).files.length - 1].content.drop 1).length =
          if data.length % N = 0 then N else data.length % N) := by
  rw [split_csv_files_eq input header data N hc hN]
  have hqr : N * (data.length / N) + data.length % N = data.length :=
    Nat.div_add_mod data.length N
  have hr : data.length % N < N := Nat.mod_lt _ (by omega)
  constructor
  · intro i hi
    simp only [List.length_map, List.length_range] at hi
    simp only [List.getElem_map, List.getElem_range, List.drop_succ_cons,
      List.drop_zero, List.length_take, List.length_drop]
    have hlt : (i + 1) * N < data.length := succ_mul_lt_of_lt_ceil data.length N i hN hi
    have e : (i + 1) * N = i * N + N := by ring
    omega
  · intro h0
    simp only [List.length_map, List.length_range] at h0 ⊢
    simp only [List.getElem_map, List.getElem_range, List.drop_succ_cons,
      List.drop_zero, List.length_take, List.length_drop]
    by_cases hmod : data.length % N = 0
    · rw [ceil_div_of_mod_eq_zero data.length N hN hmod] at h0 ⊢
      have hq1 : 1 ≤ data.length / N := h0
      have e1 : (data.length / N - 1) * N = data.length / N * N - 1 * N :=
        Nat.sub_mul _ _ _
      have e3 : data.length / N * N = N * (data.length / N) := Nat.mul_comm _ _
      have hge : N * 1 ≤ N * (data.length / N) := Nat.mul_le_mul_left N hq1
      rw [if_pos hmod]
      omega
    · rw [ceil_div_of_mod_ne_zero data.length N hN hmod] at h0 ⊢
      have e1 : (data.length / N + 1 - 1) * N = data.length / N * N := by simp
      have e3 : data.length / N * N = N * (data.length / N) := Nat.mul_comm _ _
      rw [if_neg hmod]
      omega

theorem C5_chunk_sizes_witness :
    ((split_csv ⟨"d", "t", ".csv",
          [["h"], ["1"], ["2"], ["3"], ["4"], ["5"]]⟩ ((2 : Nat) : Int)).files.map
        fun f => (f.content.drop 1).length) = [2, 2, 1] ∧
      ((split_csv ⟨"d", "t", ".csv",
          [["h"], ["1"], ["2"], ["3"], ["4"], ["5"], ["6"], ["7"]]⟩ ((3 : Nat) : Int)).files.map
        fun f => (f.content.drop 1).length) = [3, 3, 1] := by
  have h1 := C5_chunk_sizes ⟨"d", "t", ".csv", [["h"], ["1"], ["2"], ["3"], ["4"], ["5"]]⟩
    ["h"] [["1"], ["2"], ["3"], ["4"], ["5"]] 2 rfl (by decide) (by decide)
  have h2 := C5_chunk_sizes
    ⟨"d", "t", ".csv", [["h"], ["1"], ["2"], ["3"], ["4"], ["5"], ["6"], ["7"]]⟩
    ["h"] [["1"], ["2"], ["3"], ["4"], ["5"], ["6"], ["7"]] 3 rfl (by decide) (by decide)
  have h1a := h1.2 (by decide)
  have h2a := h2.2 (by decide)
  decide

/-- C8: output file `i` is placed in the input's directory and named
`{stem}.{start}-{end}{extension}` where `[start, end]` is the inclusive
1-based row range the file actually covers, namely
`[i*N + 1, min ((i+1)*N) H]`. -/
theorem C8_output_naming (input : InputFile) (header : Row) (data : List Row)
    (N : Nat) (hc : input.content = header :: data) (hN : 1 ≤ N) :
    ∀ i (hi : i < (split_csv input (N : Int)).files.length),
      (split_csv input (N : Int)).files[i].dir = input.dir ∧
        (split_csv input (N : Int)).files[i].name =
          input.stem ++ "." ++ toString (i * N + 1) ++ "-" ++
            toString (min ((i + 1) * N) data.length) ++ input.ext := by
  rw [split_csv_files_eq input header data N hc hN]
  intro i hi
  simp [List.getElem_map, List.getElem_range, output_filename]

theorem C8_output_naming_witness :
    (split_csv ⟨"dir", "data", ".csv",
        [["h"], ["1"], ["2"], ["3"], ["4"]]⟩ ((2 : Nat) : Int)).files.map
      (fun f => (f.dir, f.name)) = [("dir", "data.1-2.csv"), ("dir", "data.3-4.csv")] := by
  have h := C8_output_naming ⟨"dir", "data", ".csv", [["h"], ["1"], ["2"], ["3"], ["4"]]⟩
    ["h"] [["1"], ["2"], ["3"], ["4"]] 2 rfl (by decide)
  decide

/-- An output file name always differs from the input's file name: it
inserts `"." ++ start ++ "-" ++ end` between stem and extension, which makes
it strictly longer. -/
theorem output_filename_ne (base : String) (ext : String) (s e : Nat) :
    output_filename base ext s e ≠ base ++ ext := by
  intro h
  have hlen := congrArg String.length h
  have hdot : ("." : String).length = 1 := rfl
  have hdash : ("-" : String).length = 1 := rfl
  simp only [output_filename, String.length_append, hdot, hdash] at hlen
  omega

/-- Every file the splitter writes goes to the input's directory under a
name that differs from the input's own file name. -/
theorem split_csv_input_not_written (input : InputFile) (m : Int) :
    ∀ f ∈ (split_csv input m).files,
      f.dir = input.dir ∧ f.name ≠ input.stem ++ input.ext := by
  cases hcontent : input.content with
  | nil =>
    rw [split_csv_nil input m hcontent]
    intro f hf
    simp at hf
  | cons header data =>
    rw [split_csv_cons input m header data hcontent]
    intro f hf
    simp only [List.mem_map] at hf
    obtain ⟨c, _, rfl⟩ := hf
    exact ⟨rfl, output_filename_ne input.stem input.ext c.start_row c.end_row⟩

/-- C4 (amended): the first row of every output file is exactly the parsed
header row of the input — field values preserved, though the serialized
bytes may differ from the input's header line because the writer re-quotes
(see the counterexample). -/
theorem C4_header_first_row (input : InputFile) (m : Int) (header : Row)
    (data : List Row) (hc : input.content = header :: data) :
    ∀ f ∈ (split_csv input m).files, f.content.head? = some header := by
  rw [split_csv_cons input m header data hc]
  intro f hf
  simp only [List.mem_map] at hf
  obtain ⟨c, _, rfl⟩ := hf
  rfl

theorem C4_header_first_row_witness :
    ((split_csv ⟨"d", "t", ".csv", [["Name", "Age"], ["1", "x"], ["2", "y"]]⟩ 1).files.map
      fun f => f.content.head?) = [some ["Name", "Age"], some ["Name", "Age"]] := by
  have h := C4_header_first_row ⟨"d", "t", ".csv", [["Name", "Age"], ["1", "x"], ["2", "y"]]⟩
    1 ["Name", "Age"] [["1", "x"], ["2", "y"]] rfl
  decide

/-- C4, as stated, is false at the byte level: an input whose header line is
`"Name",Age` parses to the row `[Name, Age]`, and the splitter's output
file starts with that row serialized back as `Name,Age` — the quotes are
normalized away, so the output's header line is not byte-identical to the
input's header line. -/
theorem C4_counterexample :
    csv_parse_row "\"Name\",Age" = ["Name", "Age"] ∧
      ((split_csv ⟨"d", "t", ".csv", [["Name", "Age"], ["1", "x"]]⟩ 5).files.map
        fun f => csv_write_row (f.content.headD [])) = ["Name,Age"] ∧
      ("Name,Age" : String) ≠ "\"Name\",Age" := by
  refine ⟨by decide, by decide, by decide⟩

/-- C9: running the program only ever writes the derived output files; each
one lands in the input's directory under a name that can never equal the
input's own file name (`stem ++ ext`), so the input file is neither
overwritten nor removed.  This holds on every `main` path, including the
validation-failure paths, which write nothing at all. -/
theorem C9_input_file_untouched (p : PathInfo) (m : Int) :
    ∀ f ∈ (main p m).files,
      f.dir = p.file.dir ∧ f.name ≠ p.file.stem ++ p.file.ext := by
  unfold main
  split
  · intro f hf
    simp at hf
  · split
    · intro f hf
      simp at hf
    · split
      · intro f hf
        simp at hf
      · exact split_csv_input_not_written p.file m

theorem C9_input_file_untouched_witness :
    ((⟨"d", "t.1-1.csv", 1, 1, [["h"], ["1"]]⟩ : OutputFile).dir = "d" ∧
      ("t.1-1.csv" : String) ≠ "t" ++ ".csv") :=
  C9_input_file_untouched ⟨"p", true, true, ⟨"d", "t", ".csv", [["h"], ["1"]]⟩⟩ 5
    ⟨"d", "t.1-1.csv", 1, 1, [["h"], ["1"]]⟩ (by decide)

theorem C10_nonpositive_max_lines_witness :
    (split_csv ⟨"d", "t", ".csv", [["h"], ["1"], ["2"]]⟩ (-5)).files = [] ∧
      (split_csv ⟨"d", "t", ".csv", [["h"], ["1"], ["2"]]⟩ (-5)).messages =
        ["No data rows found in the input file"] :=
  C10_nonpositive_max_lines ⟨"d", "t", ".csv", [["h"], ["1"], ["2"]]⟩ (-5)
    ["h"] [["1"], ["2"]] rfl (by decide)

end SplitCsv
